import Mathlib

/-!
Verification of the XCP/mcp-server signing and extraction core.

Shallow embedding of the local transaction-signing and trustless-verification
core of the `@xcp/mcp-server` repository (`src/api-client.ts`, `src/signer.ts`):
byte-level helpers, the ARC4 stream cipher, OP_RETURN push-data parsing and
payload extraction, address classification, WIF decoding, and the transaction
signer.  Bytes are modelled as `Nat` (with explicit `% 256` where a
`Uint8Array` store masks), byte buffers as `List Nat`, fallible code as
`Option`/`Except`, and the external cryptographic and serialization
libraries (`@scure/btc-signer`, `@noble/*`) as explicit parameters or
spec-modelled definitions at their documented boundary.
-/

/-! ## Hex encoding and decoding (`@noble/hashes` `bytesToHex`/`hexToBytes`) -/

/-- One lowercase hex digit for a value `0..15` (as produced by the
`@noble/hashes` `bytesToHex` helper used in the source). -/
def hexDigitChar (n : Nat) : Char :=
  if n < 10 then Char.ofNat (48 + n) else Char.ofNat (87 + n)

/-- Two-digit lowercase hex encoding of one byte. -/
def byteToHexStr (b : Nat) : String :=
  String.mk [hexDigitChar (b / 16 % 16), hexDigitChar (b % 16)]

/-- Function `bytesToHex` from `@noble/hashes`: lowercase hex, two digits per byte. -/
def bytesToHex (l : List Nat) : String :=
  String.join (l.map byteToHexStr)

/-- Value of one hex character, accepting both cases
(as `@noble/hashes` `hexToBytes` does); `none` on a non-hex character. -/
def hexCharVal (c : Char) : Option Nat :=
  if 48 ≤ c.toNat ∧ c.toNat ≤ 57 then some (c.toNat - 48)
  else if 97 ≤ c.toNat ∧ c.toNat ≤ 102 then some (c.toNat - 87)
  else if 65 ≤ c.toNat ∧ c.toNat ≤ 70 then some (c.toNat - 55)
  else none

/-- Decode a list of hex characters pairwise into bytes; fails on odd length
or a non-hex character, mirroring the `hexToBytes` contract. -/
def hexPairsToBytes : List Char → Option (List Nat)
  | [] => some []
  | [_] => none
  | a :: b :: rest =>
    match hexCharVal a, hexCharVal b, hexPairsToBytes rest with
    | some x, some y, some tl => some ((16 * x + y) :: tl)
    | _, _, _ => none

/-- Function `hexToBytes` from `@noble/hashes`, as a total function: `none` exactly
where the source throws (odd length or non-hex character). -/
def hexToBytesOpt (s : String) : Option (List Nat) :=
  hexPairsToBytes s.data

/-! ## ARC4 stream cipher (`arc4Decrypt` in `api-client.ts` / `signer.ts`)

The cipher state `S` is a 256-entry permutation, modelled as a `List Nat`;
`List.set` leaves the list unchanged on an out-of-range index and
`List.getD _ 0` reads with default `0`, mirroring in-bounds `Uint8Array`
access (all indices used are `< 256` by construction). -/

/-- The in-place swap `[S[i], S[j]] = [S[j], S[i]]` of the source. -/
def swapS (S : List Nat) (i j : Nat) : List Nat :=
  let a := S.getD i 0
  let b := S.getD j 0
  (S.set i b).set j a

/-- One round of the ARC4 key schedule:
`j = (j + S[i] + key[i % key.length]) & 0xff` followed by the swap. -/
def ksaStep (key : List Nat) (sj : List Nat × Nat) (i : Nat) : List Nat × Nat :=
  let S := sj.1
  let j := (sj.2 + S.getD i 0 + key.getD (i % key.length) 0) % 256
  (swapS S i j, j)

/-- The ARC4 key schedule: identity permutation scrambled by 256 key-driven
swap rounds. -/
def ksa (key : List Nat) : List Nat :=
  ((List.range 256).foldl (ksaStep key) (List.range 256, 0)).1

/-- One keystream round: advance `ii` and `jj`, swap, and read the keystream
byte `S[(S[ii] + S[jj]) & 0xff]`.  Returns the new state, the two advanced indices, and the keystream byte. -/
def prgaStep (S : List Nat) (ii jj : Nat) : List Nat × Nat × Nat × Nat :=
  let ii2 := (ii + 1) % 256
  let jj2 := (jj + S.getD ii2 0) % 256
  let S2 := swapS S ii2 jj2
  (S2, ii2, jj2, S2.getD ((S2.getD ii2 0 + S2.getD jj2 0) % 256) 0)

/-- The ARC4 keystream loop: each data byte is XORed with the next keystream
byte (the `% 256` mirrors the store into the `Uint8Array` output). -/
def prgaRun (S : List Nat) (ii jj : Nat) : List Nat → List Nat
  | [] => []
  | d :: ds =>
    let st := prgaStep S ii jj
    ((d ^^^ st.2.2.2) % 256) :: prgaRun st.1 st.2.1 st.2.2.1 ds

/-- Function `arc4Decrypt(key, data)` from the source: key schedule, then XOR the data
with the generated keystream. -/
def arc4Decrypt (key data : List Nat) : List Nat :=
  prgaRun (ksa key) 0 0 data

/-! ## Protocol constants -/

/-- The OP_RETURN opcode `0x6a`. -/
def OP_RETURN : Nat := 0x6a

/-- The 8-byte ASCII protocol tag `CNTRPRTY`
(`CNTRPRTY_PREFIX` in the source; renamed here). -/
def cntrprtyMarker : List Nat := [0x43, 0x4e, 0x54, 0x52, 0x50, 0x52, 0x54, 0x59]

/-- Function `hasCntrprtyPrefix` from the source (renamed here): `false` when the data
is shorter than 8 bytes, otherwise a byte-for-byte comparison of the first
8 bytes against the tag. -/
def hasCntrprtyMarker (data : List Nat) : Bool :=
  if data.length < 8 then false
  else (List.range 8).all (fun i => data.getD i 0 == cntrprtyMarker.getD i 0)

/-! ## Script codec (`extractPushData` in the source) -/

/-- Function `extractPushData(script)`: parse the single push of an OP_RETURN script.
Returns `(dataStart, dataLen)` for the three push encodings exactly as the
source computes them, then applies the shared defensive bound check
`script.length < dataStart + dataLen` before slicing. -/
def extractPushData (script : List Nat) : Option (List Nat) :=
  if script.length < 2 || script.getD 0 0 != OP_RETURN then none
  else
    let pushByte := script.getD 1 0
    let parsed : Option (Nat × Nat) :=
      if pushByte == 0x4c then
        if script.length < 3 then none else some (3, script.getD 2 0)
      else if pushByte == 0x4d then
        if script.length < 4 then none
        else some (4, script.getD 2 0 ||| (script.getD 3 0 <<< 8))
      else if 1 ≤ pushByte && pushByte ≤ 75 then some (2, pushByte)
      else none
    match parsed with
    | none => none
    | some (dataStart, dataLen) =>
      if script.length < dataStart + dataLen then none
      else some ((script.drop dataStart).take dataLen)

/-! ## Parsed transactions

Model of the value returned by the external `Transaction.fromRaw` of
`@scure/btc-signer` as the source consumes it: `getInput(i)` yields an
optional txid and index (hence the `Option` fields, matching the defensive source check `!input?.txid || input.index === undefined` checks), `getOutput(i)`
yields an optional script and amount (matching the source check on `!output.script`).  A txid is kept as its raw 32 bytes. -/

structure TxInput where
  txid : Option (List Nat)
  index : Option Nat
  sequence : Nat
  scriptSig : List Nat
deriving DecidableEq, Repr

structure TxOutput where
  script : Option (List Nat)
  amount : Option Nat
deriving DecidableEq, Repr

structure Tx where
  version : Nat
  inputs : List TxInput
  outputs : List TxOutput
  locktime : Nat
deriving DecidableEq, Repr

/-! ## OP_RETURN extraction (`extractOpReturnData` in the source) -/

/-- The ARC4 key taken by `extractOpReturnData`: the txid of the first input,
when the transaction has at least one input and that input carries a txid
(the string/bytes distinction of the source collapses, txids being modelled as
bytes). -/
def firstInputKey (tx : Tx) : Option (List Nat) :=
  match tx.inputs with
  | [] => none
  | i0 :: _ =>
    match i0.txid with
    | some t => some t
    | none => none

/-- The output loop of `extractOpReturnData`: skip outputs with no script,
a short script, a non-OP_RETURN opcode, no push data, or a push shorter than
8 bytes; otherwise try ARC4 decryption first (when a key is available) and
fall back to the raw push bytes; return at the first match. -/
def scanOutputs (arc4Key : Option (List Nat)) : List TxOutput → Option (List Nat)
  | [] => none
  | o :: rest =>
    match o.script with
    | none => scanOutputs arc4Key rest
    | some s =>
      if s.length < 2 then scanOutputs arc4Key rest
      else if s.getD 0 0 != OP_RETURN then scanOutputs arc4Key rest
      else
        match extractPushData s with
        | none => scanOutputs arc4Key rest
        | some pd =>
          if pd.length < 8 then scanOutputs arc4Key rest
          else
            match arc4Key with
            | some key =>
              let dec := arc4Decrypt key pd
              if hasCntrprtyMarker dec then some dec
              else if hasCntrprtyMarker pd then some pd
              else scanOutputs arc4Key rest
            | none =>
              if hasCntrprtyMarker pd then some pd
              else scanOutputs arc4Key rest

/-- Function `extractOpReturnData` on a parsed transaction: run the output scan and
hex-encode the recovered payload (tag + payload), `none` if no output
matches. -/
def extractOpReturnData (tx : Tx) : Option String :=
  (scanOutputs (firstInputKey tx) tx.outputs).map bytesToHex

/-- Written from the claim: the payload an output yields — its OP_RETURN
push data when, after stream-cipher decryption with the key, the decrypted
bytes begin with the 8-byte tag; or, if decryption does not match, the raw
push bytes when those begin with the tag; `none` otherwise. -/
def claimOutputPayload (key : Option (List Nat)) (o : TxOutput) : Option (List Nat) :=
  match o.script.bind extractPushData with
  | none => none
  | some pd =>
    match key with
    | some k =>
      let dec := arc4Decrypt k pd
      if hasCntrprtyMarker dec then some dec
      else if hasCntrprtyMarker pd then some pd
      else none
    | none =>
      if hasCntrprtyMarker pd then some pd else none

/-- Written from the claim: the hex encoding of the payload of the first matching output,
scanning the outputs in order; absent when no output matches either form. -/
def extractClaimed (tx : Tx) : Option String :=
  (tx.outputs.findSome? (claimOutputPayload (firstInputKey tx))).map bytesToHex

/-! ## Raw transaction wire parser -/

/-- Read exactly `n` bytes from the stream. -/
def readBytesN : Nat → List Nat → Option (List Nat × List Nat)
  | 0, bs => some ([], bs)
  | _ + 1, [] => none
  | n + 1, b :: bs => (readBytesN n bs).map (fun p => (b :: p.1, p.2))

/-- Little-endian value of a byte list. -/
def leNum : List Nat → Nat
  | [] => 0
  | b :: bs => b + 256 * leNum bs

/-- Read a little-endian fixed-width unsigned integer. -/
def readLE (w : Nat) (bs : List Nat) : Option (Nat × List Nat) :=
  (readBytesN w bs).map (fun p => (leNum p.1, p.2))

/-- Read a Bitcoin variable-length integer. -/
def readVarint : List Nat → Option (Nat × List Nat)
  | [] => none
  | b :: bs =>
    if b < 0xfd then some (b, bs)
    else if b == 0xfd then readLE 2 bs
    else if b == 0xfe then readLE 4 bs
    else readLE 8 bs

/-- Read a varint-length-prefixed byte string. -/
def readVarBytes (bs : List Nat) : Option (List Nat × List Nat) := do
  let (n, rest) ← readVarint bs
  readBytesN n rest

/-- Read one transaction input: 32-byte previous txid, 32-bit previous output
index, var-length script, 32-bit sequence number. -/
def readTxInput (bs : List Nat) : Option (TxInput × List Nat) := do
  let (txid, r1) ← readBytesN 32 bs
  let (idx, r2) ← readLE 4 r1
  let (scriptSig, r3) ← readVarBytes r2
  let (seqNo, r4) ← readLE 4 r3
  some ({ txid := some txid, index := some idx, sequence := seqNo,
          scriptSig := scriptSig }, r4)

/-- Read `n` transaction inputs. -/
def readTxInputs : Nat → List Nat → Option (List TxInput × List Nat)
  | 0, bs => some ([], bs)
  | n + 1, bs => do
    let (i, r1) ← readTxInput bs
    let (is, r2) ← readTxInputs n r1
    some (i :: is, r2)

/-- Read one transaction output: 64-bit little-endian value, var-length
script. -/
def readTxOutput (bs : List Nat) : Option (TxOutput × List Nat) := do
  let (v, r1) ← readLE 8 bs
  let (script, r2) ← readVarBytes r1
  some ({ script := some script, amount := some v }, r2)

/-- Read `n` transaction outputs. -/
def readTxOutputs : Nat → List Nat → Option (List TxOutput × List Nat)
  | 0, bs => some ([], bs)
  | n + 1, bs => do
    let (o, r1) ← readTxOutput bs
    let (os, r2) ← readTxOutputs n r1
    some (o :: os, r2)

/-- Modelled from the spec: the raw-transaction wire parser performed in the
source by the external `Transaction.fromRaw` of `@scure/btc-signer` (code not
in this repository).  Per the data model of the spec, a raw transaction is "an
ordered sequence of inputs (each: previous output identifier, input script,
sequence number) and outputs (each: value in satoshi-equivalent units, output
script), parsed from an opaque hex-encoded byte string"; the standard legacy
encoding is: 32-bit version, varint input count, inputs, varint output count,
outputs, 32-bit locktime, with no trailing bytes.  Fails (`none`, where the
library throws) on truncated or trailing data.  (The library additionally
accepts the segwit wire format; that extension is not needed by any claim.) -/
def parseRawTx (bs : List Nat) : Option Tx := do
  let (version, r1) ← readLE 4 bs
  let (nin, r2) ← readVarint r1
  let (ins, r3) ← readTxInputs nin r2
  let (nout, r4) ← readVarint r3
  let (outs, r5) ← readTxOutputs nout r4
  let (lt, r6) ← readLE 4 r5
  if r6 = [] then
    some { version := version, inputs := ins, outputs := outs, locktime := lt }
  else none

/-- Error message for the hex-decoding failure of `hexToBytes` (the
`@noble/hashes` helper throws on non-hex input). -/
def hexErrMsg : String := "hex string expected"

/-- Error message for a raw transaction that does not parse
(`MalformedTransaction` in the error taxonomy of the spec; `Transaction.fromRaw`
throws). -/
def malformedTxMsg : String := "Transaction parse error"

/-- The full `extractOpReturnData(rawTransactionHex)` entry point:
`hexToBytes`, then `Transaction.fromRaw` (spec-modelled, see `parseRawTx`),
then the output scan.  `Except.error` marks the paths on which the source
throws. -/
def extractOpReturnDataFromHex (s : String) : Except String (Option String) :=
  match hexToBytesOpt s with
  | none => Except.error hexErrMsg
  | some bytes =>
    match parseRawTx bytes with
    | none => Except.error malformedTxMsg
    | some tx => Except.ok (extractOpReturnData tx)

/-! ## Address classification (`detectAddressType` in the source) -/

inductive AddressType where
  | p2pkh
  | p2wpkh
  | p2shP2wpkh
  | p2tr
deriving DecidableEq, Repr

/-- Function `detectAddressType(address)`: classify a Bitcoin address string by its
textual prefix. -/
def detectAddressType (address : String) : AddressType :=
  if address.startsWith "bc1q" || address.startsWith "tb1q" then .p2wpkh
  else if address.startsWith "bc1p" || address.startsWith "tb1p" then .p2tr
  else if address.startsWith "3" || address.startsWith "2" then .p2shP2wpkh
  else .p2pkh

/-- Written from the claim: the prefix table — `bc1q`/`tb1q` ⇒ P2WPKH,
`bc1p`/`tb1p` ⇒ P2TR, `3`/`2` ⇒ P2SH-P2WPKH, every other string ⇒ legacy
P2PKH. -/
def classifyAddressClaimed (address : String) : AddressType :=
  if address.startsWith "bc1q" ∨ address.startsWith "tb1q" then .p2wpkh
  else if address.startsWith "bc1p" ∨ address.startsWith "tb1p" then .p2tr
  else if address.startsWith "3" ∨ address.startsWith "2" then .p2shP2wpkh
  else .p2pkh

/-! ## WIF decoding (`decodeWIF` in the source)

The source feeds the textual key through `base58check.decode` of the external
`@scure/base` library, which decodes the base-58 alphabet, verifies that the
trailing 4 checksum bytes equal the leading bytes of the double SHA-256 of
the rest, and returns the remaining bytes (version byte + payload) — or
throws.  The functions below embed the logic the repository itself adds on those
decoded bytes; `decoded` stands for the successful result of that library call. -/

structure WIFResult where
  privateKey : String
  compressed : Bool
deriving DecidableEq, Repr

/-- Error message of the version-byte check in the source
(`MalformedKeyEncoding` in the error taxonomy of the spec). -/
def invalidWIFVersionMsg : String := "Invalid WIF version byte"

/-- Function `decodeWIF` from `api-client.ts` (lines 120-131), after
`base58check.decode`: reject a leading byte other than `0x80` or `0xef`
(an absent leading byte — empty input — also fails the check, as the JS
`undefined` comparison does); `compressed` is decided by the total decoded
length being 34; the key is bytes 1..32, fewer if the input is shorter. -/
def decodeWIF (decoded : List Nat) : Except String WIFResult :=
  match decoded.head? with
  | none => Except.error invalidWIFVersionMsg
  | some v =>
    if v != 0x80 && v != 0xef then Except.error invalidWIFVersionMsg
    else Except.ok { privateKey := bytesToHex ((decoded.drop 1).take 32),
                     compressed := decoded.length == 34 }

/-- Function `decodeWIF` from `signer.ts` (lines 35-46): the variant that accepts only
the mainnet version byte `0x80`. -/
def decodeWIFSigner (decoded : List Nat) : Except String WIFResult :=
  match decoded.head? with
  | none => Except.error invalidWIFVersionMsg
  | some v =>
    if v != 0x80 then Except.error invalidWIFVersionMsg
    else Except.ok { privateKey := bytesToHex ((decoded.drop 1).take 32),
                     compressed := decoded.length == 34 }

/-! ## Transaction signing (`signTransaction` in `signer.ts` /
`api-client.ts` lines 613-708)

The external elliptic-curve and payment-script primitives are passed as
parameters (`getPub` for `secp256k1.getPublicKey`, `p2wpkhFn` for
`p2wpkh(pubkey).script`, `signFin` for the composite
`tx.sign(privateKeyBytes); tx.finalize()` of `@scure/btc-signer`), so every
theorem below holds for all implementations of those libraries, constrained
only by explicitly stated boundary hypotheses.  The signed result is returned
as the transaction value (the source returns `tx.hex`, its serialization).
The private-key buffer `privateKeyBytes` is mutable in the source; it is
modelled by returning, alongside the result, the contents of the buffer at the
point the call returns. -/

structure SigningConfig where
  privateKeyHex : String
  compressed : Bool
  address : String
  addressType : AddressType
deriving DecidableEq, Repr

/-- An input of the transaction under construction, as assembled by the
`inputData` object of the source and `tx.addInput`. -/
structure PSBTInput where
  txid : List Nat
  index : Nat
  sequence : Nat
  sighashType : Nat
  witnessUtxo : Option (List Nat × Nat)
  redeemScript : Option (List Nat)
deriving DecidableEq, Repr

/-- The transaction under construction (`new Transaction(...)` of the
source), built by `addInput`/`addOutput`. -/
structure PSBTTx where
  inputs : List PSBTInput
  outputs : List TxOutput
deriving DecidableEq, Repr

/-- Condition `inputValues && lockScripts && inputValues.length > 0 &&
lockScripts.length > 0` — both arrays supplied and non-empty. -/
def hasApiDataFn (inputValues : Option (List Nat))
    (lockScripts : Option (List String)) : Bool :=
  match inputValues, lockScripts with
  | some iv, some ls => decide (0 < iv.length) && decide (0 < ls.length)
  | _, _ => false

/-- Error message of the legacy-P2PKH missing-spend-data path
(`MissingSpendData` in the error taxonomy of the spec). -/
def legacyMissingSpendDataMsg : String :=
  "Legacy P2PKH signing requires input values and lock scripts from the compose response. Use compose with verbose=true to get this data."

/-- Error message of the segwit missing-spend-data path
(`MissingSpendData` in the error taxonomy of the spec). -/
def missingSpendDataMsg : String :=
  "Signing requires input values and lock scripts from the compose response. Use compose with verbose=true to get this data."

/-- Error message of the per-input txid/index check. -/
def invalidInputMsg (i : Nat) : String :=
  "Invalid input at index " ++ toString i ++ ": missing txid or index"

/-- Error message for an out-of-range or undefined `inputValues[i]`
(the JS `BigInt(undefined)` throws). -/
def inputValueErrMsg : String := "Cannot convert to a BigInt"

/-- The `witnessUtxo` object built from `lockScripts[i]` and
`inputValues[i]`: script bytes from hex (the JS `hexToBytes` throws on an
undefined or non-hex entry), then the amount. -/
def getWitnessUtxo (lsL : List String) (ivL : List Nat) (i : Nat) :
    Except String (List Nat × Nat) :=
  match lsL.get? i with
  | none => Except.error hexErrMsg
  | some s =>
    match hexToBytesOpt s with
    | none => Except.error hexErrMsg
    | some scriptBytes =>
      match ivL.get? i with
      | none => Except.error inputValueErrMsg
      | some v => Except.ok (scriptBytes, v)

/-- The input loop of `signTransaction`: for each parsed input, require txid
and index, set sequence `0xfffffffd` and sighash type `0x01`, then branch —
legacy P2PKH requires the API data (else `MissingSpendData`), segwit types
use the API data when present (attaching the P2WPKH redeem script for the
wrapped variant) and fail with `MissingSpendData` otherwise. -/
def buildInputs (cfg : SigningConfig) (pubkeyBytes : List Nat)
    (p2wpkhFn : List Nat → Option (List Nat)) (hasApiData : Bool)
    (ivL : List Nat) (lsL : List String) :
    Nat → List TxInput → Except String (List PSBTInput)
  | _, [] => Except.ok []
  | i, inp :: rest =>
    match inp.txid, inp.index with
    | some txid, some idx =>
      let isLegacy := cfg.addressType == AddressType.p2pkh
      if isLegacy then
        if !hasApiData then Except.error legacyMissingSpendDataMsg
        else do
          let wu ← getWitnessUtxo lsL ivL i
          let tail ← buildInputs cfg pubkeyBytes p2wpkhFn hasApiData ivL lsL (i + 1) rest
          pure ({ txid := txid, index := idx, sequence := 0xfffffffd,
                  sighashType := 0x01, witnessUtxo := some wu,
                  redeemScript := none } :: tail)
      else if hasApiData then do
        let wu ← getWitnessUtxo lsL ivL i
        let rs := if cfg.addressType == AddressType.p2shP2wpkh
                  then p2wpkhFn pubkeyBytes else none
        let tail ← buildInputs cfg pubkeyBytes p2wpkhFn hasApiData ivL lsL (i + 1) rest
        pure ({ txid := txid, index := idx, sequence := 0xfffffffd,
                sighashType := 0x01, witnessUtxo := some wu,
                redeemScript := rs } :: tail)
      else Except.error missingSpendDataMsg
    | _, _ => Except.error (invalidInputMsg i)

/-- The `finally { privateKeyBytes.fill(0) }` clause: overwrite every byte of
the buffer with zero. -/
def fillZero (b : List Nat) : List Nat := b.map (fun _ => 0)

/-- Function `signTransaction(rawTransactionHex, config, inputValues?, lockScripts?)`.
Returns the result of the body together with the final contents of the
private-key buffer (the `try`/`finally` of the source zeroes the buffer on every
exit path of the body; when `hexToBytes(config.privateKeyHex)` itself fails,
no buffer is materialized, modelled by the empty buffer). -/
def signTransactionModel (getPub : String → Bool → List Nat)
    (p2wpkhFn : List Nat → Option (List Nat))
    (signFin : PSBTTx → List Nat → Except String PSBTTx)
    (rawTransactionHex : String) (config : SigningConfig)
    (inputValues : Option (List Nat)) (lockScripts : Option (List String)) :
    Except String PSBTTx × List Nat :=
  match hexToBytesOpt config.privateKeyHex with
  | none => (Except.error hexErrMsg, [])
  | some privateKeyBytes =>
    let body : Except String PSBTTx := do
      let pubkeyBytes := getPub config.privateKeyHex config.compressed
      let hasApiData := hasApiDataFn inputValues lockScripts
      let rawTxBytes ← match hexToBytesOpt rawTransactionHex with
        | some b => Except.ok b
        | none => Except.error hexErrMsg
      let parsedTx ← match parseRawTx rawTxBytes with
        | some t => Except.ok t
        | none => Except.error malformedTxMsg
      let ins ← buildInputs config pubkeyBytes p2wpkhFn hasApiData
        (inputValues.getD []) (lockScripts.getD []) 0 parsedTx.inputs
      let outs := parsedTx.outputs.map
        (fun o => ({ script := o.script, amount := o.amount } : TxOutput))
      signFin { inputs := ins, outputs := outs } privateKeyBytes
    (body, fillZero privateKeyBytes)

/-! ## Concrete sample values used by the witnesses -/

/-- A well-formed raw transaction hex: version 1, one input (zero txid,
index 0, empty script, sequence `0xffffffff`), one output (value 0, empty
script), locktime 0. -/
def sampleTxHex : String :=
  "010000000100000000000000000000000000000000000000000000000000000000000000000000000000ffffffff0100000000000000000000000000"

/-- The byte decoding of `sampleTxHex`. -/
def sampleTxBytes : List Nat :=
  [1, 0, 0, 0] ++ [1] ++ List.replicate 32 0 ++ [0, 0, 0, 0] ++ [0] ++
  [0xff, 0xff, 0xff, 0xff] ++ [1] ++ List.replicate 8 0 ++ [0] ++ [0, 0, 0, 0]

/-- The parse of `sampleTxBytes`. -/
def sampleTx : Tx :=
  { version := 1,
    inputs := [{ txid := some (List.replicate 32 0), index := some 0,
                 sequence := 0xffffffff, scriptSig := [] }],
    outputs := [{ script := some [], amount := some 0 }],
    locktime := 0 }

/-- A sample signing configuration (native segwit). -/
def sampleConfig : SigningConfig :=
  { privateKeyHex := "0b", compressed := true,
    address := "bc1qsample", addressType := AddressType.p2wpkh }

/-- A trivial stand-in for the external public-key derivation. -/
def samplePub : String → Bool → List Nat := fun _ _ => []

/-- A trivial stand-in for the external P2WPKH payment-script builder. -/
def sampleP2wpkhFn : List Nat → Option (List Nat) := fun _ => none

/-- A trivial stand-in for the external sign-and-finalize step: returns the
transaction unchanged (so it preserves outputs and input fields). -/
def sampleSignFin : PSBTTx → List Nat → Except String PSBTTx :=
  fun t _ => Except.ok t

/-- The transaction `signTransactionModel` builds from `sampleTxHex` with
`sampleConfig`, input values `[1000]` and lock scripts `["00"]`. -/
def sampleSignedTx : PSBTTx :=
  { inputs := [{ txid := List.replicate 32 0, index := 0,
                 sequence := 0xfffffffd, sighashType := 0x01,
                 witnessUtxo := some ([0], 1000), redeemScript := none }],
    outputs := [{ script := some [], amount := some 0 }] }

/-! # Theorems -/

/-! ## ARC4 state bounds and involution -/

/-- All entries of the identity permutation are below 256. -/
theorem range256_getD_lt (i : Nat) : (List.range 256).getD i 0 < 256 := by
  rw [List.getD_eq_getElem?_getD]
  rcases h : (List.range 256)[i]? with _ | v
  · simp
  · have hv : v ∈ List.range 256 := List.getElem?_mem h
    simp only [Option.getD_some]
    simpa using List.mem_range.mp hv

/-- Setting with `List.set` a value below 256 preserves the all-below-256 bound on
default-0 reads. -/
theorem getD_set_lt (S : List Nat) (a v : Nat)
    (hS : ∀ i, S.getD i 0 < 256) (hv : v < 256) :
    ∀ i, (S.set a v).getD i 0 < 256 := by
  intro i
  rw [List.getD_eq_getElem?_getD, List.getElem?_set]
  split
  · split
    · simpa using hv
    · simp
  · rw [← List.getD_eq_getElem?_getD]
    exact hS i

/-- The cipher-state swap preserves the all-below-256 bound. -/
theorem getD_swapS_lt (S : List Nat) (a b : Nat)
    (hS : ∀ i, S.getD i 0 < 256) :
    ∀ i, (swapS S a b).getD i 0 < 256 := by
  unfold swapS
  exact getD_set_lt _ _ _ (getD_set_lt _ _ _ hS (hS b)) (hS a)

/-- One key-schedule round preserves the all-below-256 bound. -/
theorem ksaStep_getD_lt (key : List Nat) (sj : List Nat × Nat) (i : Nat)
    (h : ∀ x, sj.1.getD x 0 < 256) :
    ∀ x, (ksaStep key sj i).1.getD x 0 < 256 := by
  unfold ksaStep
  exact getD_swapS_lt _ _ _ h

/-- The key-schedule fold preserves the all-below-256 bound. -/
theorem foldl_ksaStep_getD_lt (key : List Nat) (l : List Nat) :
    ∀ sj : List Nat × Nat, (∀ x, sj.1.getD x 0 < 256) →
      ∀ x, (l.foldl (ksaStep key) sj).1.getD x 0 < 256 := by
  induction l with
  | nil => intro sj h; simpa using h
  | cons a as ih =>
    intro sj h
    exact ih _ (ksaStep_getD_lt key sj a h)

set_option maxRecDepth 2000 in
/-- Every entry of the scheduled cipher state is below 256. -/
theorem ksa_getD_lt (key : List Nat) : ∀ i, (ksa key).getD i 0 < 256 := by
  unfold ksa
  exact foldl_ksaStep_getD_lt key _ _ (fun x => range256_getD_lt x)

/-- One keystream round preserves the all-below-256 bound on the state. -/
theorem prgaStep_S_getD_lt (S : List Nat) (ii jj : Nat)
    (h : ∀ x, S.getD x 0 < 256) :
    ∀ x, (prgaStep S ii jj).1.getD x 0 < 256 := by
  unfold prgaStep
  exact getD_swapS_lt _ _ _ h

/-- The emitted keystream byte is below 256. -/
theorem prgaStep_ks_lt (S : List Nat) (ii jj : Nat)
    (h : ∀ x, S.getD x 0 < 256) : (prgaStep S ii jj).2.2.2 < 256 := by
  unfold prgaStep
  exact getD_swapS_lt _ _ _ h _

/-- The keystream loop preserves the data length. -/
theorem prgaRun_length (d : List Nat) :
    ∀ S ii jj, (prgaRun S ii jj d).length = d.length := by
  induction d with
  | nil => intro S ii jj; rfl
  | cons b bs ih =>
    intro S ii jj
    simp only [prgaRun, List.length_cons]
    rw [ih]

/-- XOR of two bytes is a byte. -/
theorem xor_lt_256 {a b : Nat} (ha : a < 256) (hb : b < 256) :
    a ^^^ b < 256 := by
  have := Nat.xor_lt_two_pow (n := 8) (x := a) (y := b) (by simpa using ha)
    (by simpa using hb)
  simpa using this

/-- Running the keystream loop twice from the same state and indices returns
the original byte sequence: the two runs generate the same keystream, and
XOR is self-inverse on bytes. -/
theorem prgaRun_prgaRun (d : List Nat) :
    ∀ S ii jj, (∀ x, S.getD x 0 < 256) → (∀ b ∈ d, b < 256) →
      prgaRun S ii jj (prgaRun S ii jj d) = d := by
  induction d with
  | nil => intro S ii jj _ _; rfl
  | cons b bs ih =>
    intro S ii jj hS hd
    have hb : b < 256 := hd b (List.mem_cons_self b bs)
    have hks : (prgaStep S ii jj).2.2.2 < 256 := prgaStep_ks_lt S ii jj hS
    have hxor : b ^^^ (prgaStep S ii jj).2.2.2 < 256 := xor_lt_256 hb hks
    simp only [prgaRun, List.cons.injEq]
    constructor
    · rw [Nat.mod_eq_of_lt hxor, Nat.xor_assoc, Nat.xor_self, Nat.xor_zero,
        Nat.mod_eq_of_lt hb]
    · exact ih _ _ _ (prgaStep_S_getD_lt S ii jj hS)
        (fun x hx => hd x (List.mem_cons_of_mem b hx))

/-- C4: the stream cipher is an involution: for every non-empty key and
every byte sequence (entries below 256, as stored in a `Uint8Array`),
decrypting twice with the same key returns the original data, and the
output length always equals the input length. -/
theorem arc4Decrypt_involution (key data : List Nat) (_hkey : key ≠ [])
    (hdata : ∀ b ∈ data, b < 256) :
    arc4Decrypt key (arc4Decrypt key data) = data ∧
    (arc4Decrypt key data).length = data.length := by
  refine ⟨?_, prgaRun_length data (ksa key) 0 0⟩
  exact prgaRun_prgaRun data (ksa key) 0 0 (ksa_getD_lt key) hdata

/-- Witness for C4 at key `[1]` and data `[7, 8]`. -/
theorem arc4Decrypt_involution_witness :
    ([1] : List Nat) ≠ [] ∧ (∀ b ∈ [7, 8], b < 256) ∧
    (arc4Decrypt [1] (arc4Decrypt [1] [7, 8]) = [7, 8] ∧
     (arc4Decrypt [1] [7, 8]).length = [7, 8].length) :=
  ⟨by decide, by decide, arc4Decrypt_involution [1] [7, 8] (by decide) (by decide)⟩

/-! ## OP_RETURN extraction: the loop equals first-match -/

/-- The cipher output has the length of its input. -/
theorem arc4Decrypt_length (key data : List Nat) :
    (arc4Decrypt key data).length = data.length :=
  prgaRun_length data (ksa key) 0 0

/-- Data shorter than the 8-byte tag never matches it. -/
theorem hasCntrprtyMarker_eq_false_of_short {l : List Nat} (h : l.length < 8) :
    hasCntrprtyMarker l = false := by
  simp [hasCntrprtyMarker, h]

/-- A script shorter than 2 bytes has no push data. -/
theorem extractPushData_eq_none_of_short {s : List Nat} (h : s.length < 2) :
    extractPushData s = none := by
  simp [extractPushData, h]

/-- A script not starting with OP_RETURN has no push data. -/
theorem extractPushData_eq_none_of_op {s : List Nat} (h : ¬ s.getD 0 0 = OP_RETURN) :
    extractPushData s = none := by
  have hb : (s.getD 0 0 != OP_RETURN) = true := by simpa [bne_iff_ne] using h
  unfold extractPushData
  rw [hb, Bool.or_true]
  simp

/-- The output loop of the source, with its skip conditions, computes exactly the
first output payload in the sense of the claim. -/
theorem scanOutputs_eq_findSome (key : Option (List Nat)) (outs : List TxOutput) :
    scanOutputs key outs = outs.findSome? (claimOutputPayload key) := by
  induction outs with
  | nil => rfl
  | cons o rest ih =>
    rw [List.findSome?_cons]
    cases hscript : o.script with
    | none =>
      simp only [scanOutputs, claimOutputPayload, hscript, Option.none_bind]
      exact ih
    | some s =>
      by_cases h2 : s.length < 2
      · have hpd := extractPushData_eq_none_of_short h2
        simp [scanOutputs, claimOutputPayload, hscript, h2, hpd]
        exact ih
      · by_cases hop : s.getD 0 0 = OP_RETURN
        · have hop' : s[0]?.getD 0 = OP_RETURN := by
            rw [← List.getD_eq_getElem?_getD]; exact hop
          cases hpd : extractPushData s with
          | none =>
            simp [scanOutputs, claimOutputPayload, hscript, h2, hop', hpd]
            exact ih
          | some pd =>
            by_cases h8 : pd.length < 8
            · have hm : hasCntrprtyMarker pd = false :=
                hasCntrprtyMarker_eq_false_of_short h8
              cases key with
              | none =>
                simp [scanOutputs, claimOutputPayload, hscript, h2, hop', hpd,
                  h8, hm]
                exact ih
              | some k =>
                have hdec : hasCntrprtyMarker (arc4Decrypt k pd) = false := by
                  apply hasCntrprtyMarker_eq_false_of_short
                  rw [arc4Decrypt_length]; exact h8
                simp [scanOutputs, claimOutputPayload, hscript, h2, hop', hpd,
                  h8, hm, hdec]
                exact ih
            · cases key with
              | none =>
                by_cases hm : hasCntrprtyMarker pd
                · simp [scanOutputs, claimOutputPayload, hscript, h2, hop',
                    hpd, h8, hm]
                · simp [scanOutputs, claimOutputPayload, hscript, h2, hop',
                    hpd, h8, hm]
                  exact ih
              | some k =>
                by_cases hdec : hasCntrprtyMarker (arc4Decrypt k pd)
                · simp [scanOutputs, claimOutputPayload, hscript, h2, hop',
                    hpd, h8, hdec]
                · by_cases hm : hasCntrprtyMarker pd
                  · simp [scanOutputs, claimOutputPayload, hscript, h2, hop',
                      hpd, h8, hdec, hm]
                  · simp [scanOutputs, claimOutputPayload, hscript, h2, hop',
                      hpd, h8, hdec, hm]
                    exact ih
        · have hpd := extractPushData_eq_none_of_op hop
          have hop' : ¬ s[0]?.getD 0 = OP_RETURN := by
            rw [← List.getD_eq_getElem?_getD]; exact hop
          simp [scanOutputs, claimOutputPayload, hscript, h2, hop', hpd]
          exact ih

/-- C1: for every parsed transaction, `extractOpReturnData` returns the hex
encoding (tag + payload) of the first output whose OP_RETURN push data,
after ARC4 decryption keyed by the txid of the first input, begins with the
8-byte CNTRPRTY tag — or, when decryption does not match, whose raw push
bytes begin with the tag; and absent when no output matches either form. -/
theorem extractOpReturnData_eq_claimed (tx : Tx) :
    extractOpReturnData tx = extractClaimed tx := by
  unfold extractOpReturnData extractClaimed
  rw [scanOutputs_eq_findSome]

/-! ## Script codec bounds -/

/-- C7: the push-data parser of OP_RETURN scripts never reads past the
script buffer: whenever it returns data, the slice it took lies entirely
within the script (`st + len ≤ script.length`), and for each of the three
push encodings (direct push, PUSHDATA1, PUSHDATA2) a script shorter than
the declared data length yields no match. -/
theorem extractPushData_safe (script : List Nat) :
    (∀ d, extractPushData script = some d →
      ∃ st len, st + len ≤ script.length ∧ d = (script.drop st).take len ∧
        d.length = len)
    ∧ (script.getD 1 0 = 0x4c → script.length < 3 + script.getD 2 0 →
        extractPushData script = none)
    ∧ (script.getD 1 0 = 0x4d →
        script.length < 4 + (script.getD 2 0 ||| (script.getD 3 0 <<< 8)) →
        extractPushData script = none)
    ∧ (1 ≤ script.getD 1 0 → script.getD 1 0 ≤ 75 →
        script.length < 2 + script.getD 1 0 → extractPushData script = none) := by
  refine ⟨?_, ?_, ?_, ?_⟩
  · intro d hd
    simp only [extractPushData] at hd
    split at hd
    · exact Option.noConfusion hd
    · split at hd
      · exact Option.noConfusion hd
      · rename_i hpair
        split at hd
        · exact Option.noConfusion hd
        · rename_i hle
          rename_i dataStart dataLen
          refine ⟨dataStart, dataLen, by omega, (Option.some.inj hd).symm, ?_⟩
          rw [← Option.some.inj hd]
          simp only [List.length_take, List.length_drop]
          omega
  · intro h1 hlt
    simp only [List.getD_eq_getElem?_getD] at h1 hlt
    by_cases hl3 : script.length < 3
    · simp [extractPushData, h1, hl3]
    · simp [extractPushData, h1, hl3, hlt]
  · intro h1 hlt
    simp only [List.getD_eq_getElem?_getD] at h1 hlt
    by_cases hl4 : script.length < 4
    · simp [extractPushData, h1, hl4]
    · simp [extractPushData, h1, hl4, hlt]
  · intro h1 h75 hlt
    have hne76 : ¬ script.getD 1 0 = 76 := by omega
    have hne77 : ¬ script.getD 1 0 = 77 := by omega
    simp only [List.getD_eq_getElem?_getD] at h1 h75 hlt hne76 hne77
    simp [extractPushData, hne76, hne77, h1, h75, hlt]

/-- Witness for C7: the script `[0x6a, 0x05, 0x01]` declares a 5-byte direct
push but carries only one byte; the parser returns no match. -/
theorem extractPushData_safe_witness :
    1 ≤ ([0x6a, 5, 1] : List Nat).getD 1 0 ∧
    ([0x6a, 5, 1] : List Nat).getD 1 0 ≤ 75 ∧
    ([0x6a, 5, 1] : List Nat).length < 2 + ([0x6a, 5, 1] : List Nat).getD 1 0 ∧
    extractPushData [0x6a, 5, 1] = none :=
  ⟨by decide, by decide, by decide,
    (extractPushData_safe [0x6a, 5, 1]).2.2.2 (by decide) (by decide) (by decide)⟩

/-! ## Address classification -/

/-- C6: `detectAddressType` is a total, deterministic, pure function of the
prefix of the address string, agreeing with the claimed four-way partition:
`bc1q`/`tb1q` to P2WPKH, `bc1p`/`tb1p` to P2TR, `3`/`2` to P2SH-P2WPKH, and
every other string to legacy P2PKH. -/
theorem detectAddressType_eq_claimed (address : String) :
    detectAddressType address = classifyAddressClaimed address := by
  unfold detectAddressType classifyAddressClaimed
  by_cases h1 : address.startsWith "bc1q" = true <;>
    by_cases h2 : address.startsWith "tb1q" = true <;>
    by_cases h3 : address.startsWith "bc1p" = true <;>
    by_cases h4 : address.startsWith "tb1p" = true <;>
    by_cases h5 : address.startsWith "3" = true <;>
    by_cases h6 : address.startsWith "2" = true <;>
    simp [h1, h2, h3, h4, h5, h6]

/-! ## WIF decoding -/

/-- Counterexample for C5: the decoded byte sequence `[0x80]` — version byte
alone, payload length 0, which is neither 32 nor 33 — is accepted by
`decodeWIF`, which returns an empty key and `compressed = false` instead of
failing with `MalformedKeyEncoding`: the source never validates the payload
length (nor the trailing `0x01` marker).  `[0x80]` is the base58check
decoding of the 7-character textual key `FXjQL6s` (checksum `c9403978`), so
the full pipeline accepts that encoding as well. -/
theorem decodeWIF_length_unchecked_cex :
    decodeWIF [0x80] = Except.ok { privateKey := "", compressed := false } := rfl

/-- C5 (amended): `decodeWIF` (the `api-client.ts` variant) succeeds exactly
when the base58check-decoded bytes begin with version byte `0x80` or `0xef`
(either accepted); the payload length is not validated — `compressed` is
true exactly when the total decoded length is 34 (the trailing byte itself
is never inspected) and the returned key is decoded bytes 1..32, fewer if
the input is shorter; the version-byte failure is the only
`MalformedKeyEncoding` raised here (checksum failures are raised earlier by
the external base58check decoder). -/
theorem decodeWIF_characterization (decoded : List Nat) :
    (∀ v, decoded.head? = some v → (v = 0x80 ∨ v = 0xef) →
      decodeWIF decoded = Except.ok
        { privateKey := bytesToHex ((decoded.drop 1).take 32),
          compressed := decoded.length == 34 })
    ∧ ((∀ v, decoded.head? = some v → ¬ v = 0x80 ∧ ¬ v = 0xef) →
      decodeWIF decoded = Except.error invalidWIFVersionMsg) := by
  constructor
  · intro v hv hor
    have hb : (v != 0x80 && v != 0xef) = false := by
      rcases hor with h | h <;> simp [h]
    simp [decodeWIF, hv, hb]
  · intro hno
    cases hv : decoded.head? with
    | none => simp [decodeWIF, hv]
    | some v =>
      have hvv := hno v hv
      have hb : (v != 0x80 && v != 0xef) = true := by
        simp only [Bool.and_eq_true, bne_iff_ne, ne_eq]
        exact ⟨hvv.1, hvv.2⟩
      simp [decodeWIF, hv, hb]

/-- Witness for C5 (amended) at the decoded bytes `[0x80, 1, 2]`: accepted,
with a 2-byte key and `compressed = false`. -/
theorem decodeWIF_characterization_witness :
    ([0x80, 1, 2] : List Nat).head? = some 0x80 ∧
    decodeWIF [0x80, 1, 2] = Except.ok
      { privateKey := bytesToHex ((([0x80, 1, 2] : List Nat).drop 1).take 32),
        compressed := ([0x80, 1, 2] : List Nat).length == 34 } :=
  ⟨rfl, (decodeWIF_characterization [0x80, 1, 2]).1 0x80 rfl (Or.inl rfl)⟩

/-! ## Extraction entry point: error behaviour -/

/-- Counterexample for C8: `"00"` is well-formed hex (it decodes to `[0]`),
yet `extractOpReturnData` does not terminate normally with a result or
absent — the single byte `0x00` does not parse as a transaction, and the
call throws (`MalformedTransaction`). -/
theorem extractOpReturnDataFromHex_throws_cex :
    hexToBytesOpt "00" = some [0] ∧
    extractOpReturnDataFromHex "00" = Except.error malformedTxMsg :=
  ⟨rfl, rfl⟩

/-- C8 (amended): for every input string that decodes as hex and whose bytes
parse as a transaction, `extractOpReturnData` terminates normally, returning
the extracted hex string or absent; it throws exactly on non-hex input and
on hex that does not parse as a transaction. -/
theorem extractOpReturnDataFromHex_total (s : String) (bytes : List Nat)
    (tx : Tx) (hhex : hexToBytesOpt s = some bytes)
    (hparse : parseRawTx bytes = some tx) :
    extractOpReturnDataFromHex s = Except.ok (extractOpReturnData tx) := by
  simp [extractOpReturnDataFromHex, hhex, hparse]

/-- Witness for C8 (amended) at the concrete one-input one-output raw
transaction `sampleTxHex`. -/
theorem extractOpReturnDataFromHex_total_witness :
    hexToBytesOpt sampleTxHex = some sampleTxBytes ∧
    parseRawTx sampleTxBytes = some sampleTx ∧
    extractOpReturnDataFromHex sampleTxHex =
      Except.ok (extractOpReturnData sampleTx) :=
  ⟨rfl, rfl,
    extractOpReturnDataFromHex_total sampleTxHex sampleTxBytes sampleTx rfl rfl⟩

/-! ## Signer: helper lemmas -/

/-- Bind of `Except` on a success. -/
theorem exceptBind_ok {α β : Type} (a : α) (f : α → Except String β) :
    (Except.ok a : Except String α) >>= f = f a := rfl

/-- Bind of `Except` on a failure. -/
theorem exceptBind_error {α β : Type} (e : String) (f : α → Except String β) :
    (Except.error e : Except String α) >>= f = Except.error e := rfl

/-- Every input read by the wire parser carries a txid and an index. -/
theorem readTxInput_fields (bs : List Nat) (inp : TxInput) (rest : List Nat)
    (h : readTxInput bs = some (inp, rest)) :
    inp.txid.isSome ∧ inp.index.isSome := by
  simp only [readTxInput] at h
  cases h1 : readBytesN 32 bs with
  | none => rw [h1] at h; exact Option.noConfusion h
  | some p1 =>
    obtain ⟨txid1, r1⟩ := p1
    rw [h1] at h
    simp only [Option.bind_eq_bind, Option.some_bind] at h
    cases h2 : readLE 4 r1 with
    | none => rw [h2] at h; exact Option.noConfusion h
    | some p2 =>
      obtain ⟨idx2, r2⟩ := p2
      rw [h2] at h
      simp only [Option.some_bind] at h
      cases h3 : readVarBytes r2 with
      | none => rw [h3] at h; exact Option.noConfusion h
      | some p3 =>
        obtain ⟨ss3, r3⟩ := p3
        rw [h3] at h
        simp only [Option.some_bind] at h
        cases h4 : readLE 4 r3 with
        | none => rw [h4] at h; exact Option.noConfusion h
        | some p4 =>
          obtain ⟨sq4, r4⟩ := p4
          rw [h4] at h
          simp only [Option.some_bind] at h
          cases h
          simp

/-- Every input in a list read by the wire parser carries a txid and an
index. -/
theorem readTxInputs_fields (n : Nat) :
    ∀ bs ins rest, readTxInputs n bs = some (ins, rest) →
      ∀ inp ∈ ins, inp.txid.isSome ∧ inp.index.isSome := by
  induction n with
  | zero =>
    intro bs ins rest h inp hmem
    simp only [readTxInputs] at h
    cases h
    exact absurd hmem (List.not_mem_nil inp)
  | succ n ih =>
    intro bs ins rest h inp hmem
    simp only [readTxInputs] at h
    cases h1 : readTxInput bs with
    | none => rw [h1] at h; exact Option.noConfusion h
    | some p1 =>
      obtain ⟨i1, r1⟩ := p1
      rw [h1] at h
      simp only [Option.bind_eq_bind, Option.some_bind] at h
      cases h2 : readTxInputs n r1 with
      | none => rw [h2] at h; exact Option.noConfusion h
      | some p2 =>
        obtain ⟨is2, r2⟩ := p2
        rw [h2] at h
        simp only [Option.some_bind, Option.some.injEq, Prod.mk.injEq] at h
        obtain ⟨hins, hrest⟩ := h
        subst hins
        rcases List.mem_cons.mp hmem with hh | ht
        · subst hh
          exact readTxInput_fields bs inp r1 h1
        · exact ih r1 is2 r2 h2 inp ht

/-- Every input of a transaction produced by the wire parser carries a txid
and an index. -/
theorem parseRawTx_input_fields (bs : List Nat) (tx : Tx)
    (h : parseRawTx bs = some tx) :
    ∀ inp ∈ tx.inputs, inp.txid.isSome ∧ inp.index.isSome := by
  simp only [parseRawTx] at h
  cases h1 : readLE 4 bs with
  | none => rw [h1] at h; exact Option.noConfusion h
  | some p1 =>
    obtain ⟨ver, r1⟩ := p1
    rw [h1] at h
    simp only [Option.bind_eq_bind, Option.some_bind] at h
    cases h2 : readVarint r1 with
    | none => rw [h2] at h; exact Option.noConfusion h
    | some p2 =>
      obtain ⟨nin, r2⟩ := p2
      rw [h2] at h
      simp only [Option.some_bind] at h
      cases h3 : readTxInputs nin r2 with
      | none => rw [h3] at h; exact Option.noConfusion h
      | some p3 =>
        obtain ⟨ins, r3⟩ := p3
        rw [h3] at h
        simp only [Option.some_bind] at h
        cases h4 : readVarint r3 with
        | none => rw [h4] at h; exact Option.noConfusion h
        | some p4 =>
          obtain ⟨nout, r4⟩ := p4
          rw [h4] at h
          simp only [Option.some_bind] at h
          cases h5 : readTxOutputs nout r4 with
          | none => rw [h5] at h; exact Option.noConfusion h
          | some p5 =>
            obtain ⟨outs, r5⟩ := p5
            rw [h5] at h
            simp only [Option.some_bind] at h
            cases h6 : readLE 4 r5 with
            | none => rw [h6] at h; exact Option.noConfusion h
            | some p6 =>
              obtain ⟨lt6, r6⟩ := p6
              rw [h6] at h
              simp only [Option.some_bind] at h
              by_cases h7 : r6 = []
              · rw [if_pos h7] at h
                cases h
                exact readTxInputs_fields nin r2 ins r3 h3
              · rw [if_neg h7] at h
                exact Option.noConfusion h

/-- C2: for every raw transaction (parsed, with at least one input) and
every signing configuration (with a well-formed key hex), calling
`signTransaction` with the per-input spend data omitted fails with the
`MissingSpendData` error — the legacy message for the P2PKH configuration,
the segwit message otherwise — and returns no transaction at all. -/
theorem signTransaction_missing_spend_data
    (getPub : String → Bool → List Nat)
    (p2wpkhFn : List Nat → Option (List Nat))
    (signFin : PSBTTx → List Nat → Except String PSBTTx)
    (rawHex : String) (config : SigningConfig)
    (keyBytes bytes : List Nat) (tx : Tx)
    (hkey : hexToBytesOpt config.privateKeyHex = some keyBytes)
    (hhex : hexToBytesOpt rawHex = some bytes)
    (hparse : parseRawTx bytes = some tx)
    (hne : tx.inputs ≠ []) :
    (signTransactionModel getPub p2wpkhFn signFin rawHex config none none).1 =
      Except.error (if config.addressType = AddressType.p2pkh
        then legacyMissingSpendDataMsg else missingSpendDataMsg) := by
  obtain ⟨i0, irest, hcons⟩ := List.exists_cons_of_ne_nil hne
  have hfields := parseRawTx_input_fields bytes tx hparse i0
    (by rw [hcons]; exact List.mem_cons_self _ _)
  obtain ⟨t0, ht0⟩ := Option.isSome_iff_exists.mp hfields.1
  obtain ⟨x0, hx0⟩ := Option.isSome_iff_exists.mp hfields.2
  simp only [signTransactionModel, hkey, hhex, hparse, exceptBind_ok]
  rw [hcons]
  simp only [buildInputs, ht0, hx0]
  by_cases haddr : config.addressType = AddressType.p2pkh
  · simp [haddr, hasApiDataFn, exceptBind_error]
  · have hne' : (config.addressType == AddressType.p2pkh) = false := by
      simp [haddr]
    simp [hne', haddr, hasApiDataFn, exceptBind_error]

/-- Witness for C2: the one-input sample transaction with the native-segwit
sample configuration and no spend data fails with `MissingSpendData`. -/
theorem signTransaction_missing_spend_data_witness :
    hexToBytesOpt sampleConfig.privateKeyHex = some [0x0b] ∧
    hexToBytesOpt sampleTxHex = some sampleTxBytes ∧
    parseRawTx sampleTxBytes = some sampleTx ∧
    sampleTx.inputs ≠ [] ∧
    (signTransactionModel samplePub sampleP2wpkhFn sampleSignFin sampleTxHex
        sampleConfig none none).1 =
      Except.error (if sampleConfig.addressType = AddressType.p2pkh
        then legacyMissingSpendDataMsg else missingSpendDataMsg) :=
  ⟨rfl, rfl, rfl, by decide,
    signTransaction_missing_spend_data samplePub sampleP2wpkhFn sampleSignFin
      sampleTxHex sampleConfig [0x0b] sampleTxBytes sampleTx rfl rfl rfl
      (by decide)⟩

/-- C3: whenever `signTransaction` succeeds, the output list of the signed
transaction equals the output list of the parsed input transaction exactly — same
number, order, values and scripts — provided the external sign-and-finalize
step leaves outputs unchanged (its documented behaviour: it only attaches
signatures to inputs). -/
theorem signTransaction_preserves_outputs
    (getPub : String → Bool → List Nat)
    (p2wpkhFn : List Nat → Option (List Nat))
    (signFin : PSBTTx → List Nat → Except String PSBTTx)
    (rawHex : String) (config : SigningConfig)
    (inputValues : Option (List Nat)) (lockScripts : Option (List String))
    (bytes : List Nat) (tx : Tx) (signed : PSBTTx)
    (hhex : hexToBytesOpt rawHex = some bytes)
    (hparse : parseRawTx bytes = some tx)
    (hfin : ∀ t k u, signFin t k = Except.ok u → u.outputs = t.outputs)
    (hok : (signTransactionModel getPub p2wpkhFn signFin rawHex config
        inputValues lockScripts).1 = Except.ok signed) :
    signed.outputs = tx.outputs := by
  cases hkey : hexToBytesOpt config.privateKeyHex with
  | none =>
    rw [signTransactionModel, hkey] at hok
    exact Except.noConfusion hok
  | some keyBytes =>
    simp only [signTransactionModel, hkey, hhex, hparse, exceptBind_ok] at hok
    cases hbuild : buildInputs config (getPub config.privateKeyHex
        config.compressed) p2wpkhFn (hasApiDataFn inputValues lockScripts)
        (inputValues.getD []) (lockScripts.getD []) 0 tx.inputs with
    | error e =>
      rw [hbuild] at hok
      simp only [exceptBind_error] at hok
      exact Except.noConfusion hok
    | ok ins =>
      rw [hbuild] at hok
      simp only [exceptBind_ok] at hok
      have := hfin _ _ _ hok
      simpa using this

/-- Witness for C3: the sample signing run succeeds and returns the sample
single output of the sample transaction unchanged. -/
theorem signTransaction_preserves_outputs_witness :
    (signTransactionModel samplePub sampleP2wpkhFn sampleSignFin sampleTxHex
        sampleConfig (some [1000]) (some ["00"])).1 = Except.ok sampleSignedTx ∧
    sampleSignedTx.outputs = sampleTx.outputs :=
  ⟨rfl,
    signTransaction_preserves_outputs samplePub sampleP2wpkhFn sampleSignFin
      sampleTxHex sampleConfig (some [1000]) (some ["00"])
      sampleTxBytes sampleTx sampleSignedTx rfl rfl
      (fun t k u h => by injection h with h'; subst h'; rfl) rfl⟩

/-- C9: on every exit path of `signTransaction` — success or any error —
the private-key byte buffer materialized for the call is overwritten with
zeros before the call returns: the second component of the model, the
returned buffer contents, is all zeros of the length of the key, for every
input, configuration and spend data. -/
theorem signTransaction_zeroizes_key
    (getPub : String → Bool → List Nat)
    (p2wpkhFn : List Nat → Option (List Nat))
    (signFin : PSBTTx → List Nat → Except String PSBTTx)
    (rawHex : String) (config : SigningConfig)
    (inputValues : Option (List Nat)) (lockScripts : Option (List String))
    (keyBytes : List Nat)
    (hkey : hexToBytesOpt config.privateKeyHex = some keyBytes) :
    (signTransactionModel getPub p2wpkhFn signFin rawHex config
        inputValues lockScripts).2 = List.replicate keyBytes.length 0 := by
  simp only [signTransactionModel, hkey, fillZero]
  exact List.map_const keyBytes 0

/-- Witness for C9: the key buffer returned by the sample run is `[0]` — the
one-byte key zeroed. -/
theorem signTransaction_zeroizes_key_witness :
    hexToBytesOpt sampleConfig.privateKeyHex = some [0x0b] ∧
    (signTransactionModel samplePub sampleP2wpkhFn sampleSignFin sampleTxHex
        sampleConfig none none).2 = List.replicate 1 0 :=
  ⟨rfl,
    signTransaction_zeroizes_key samplePub sampleP2wpkhFn sampleSignFin
      sampleTxHex sampleConfig none none [0x0b] rfl⟩

/-- Every input assembled by the signing loop carries sequence number
`0xfffffffd` and sighash type `0x01`, whatever the parsed input carried. -/
theorem buildInputs_seq_sighash (cfg : SigningConfig) (pub : List Nat)
    (fn : List Nat → Option (List Nat)) (hasApi : Bool)
    (ivL : List Nat) (lsL : List String) (l : List TxInput) :
    ∀ i ins, buildInputs cfg pub fn hasApi ivL lsL i l = Except.ok ins →
      ∀ p ∈ ins, p.sequence = 0xfffffffd ∧ p.sighashType = 0x01 := by
  induction l with
  | nil =>
    intro i ins h p hp
    simp only [buildInputs] at h
    cases h
    exact absurd hp (List.not_mem_nil p)
  | cons inp rest ih =>
    intro i ins h p hp
    simp only [buildInputs] at h
    cases htx : inp.txid with
    | none => simp only [htx] at h; exact Except.noConfusion h
    | some t =>
      cases hix : inp.index with
      | none => simp only [htx, hix] at h; exact Except.noConfusion h
      | some ix =>
        simp only [htx, hix] at h
        by_cases hleg : (cfg.addressType == AddressType.p2pkh) = true
        · rw [if_pos hleg] at h
          cases hapi : hasApi with
          | false => rw [hapi] at h; exact Except.noConfusion h
          | true =>
            rw [hapi] at h
            simp only [Bool.not_true, Bool.false_eq_true, if_false] at h
            cases hwu : getWitnessUtxo lsL ivL i with
            | error e => rw [hwu] at h; exact Except.noConfusion h
            | ok wu =>
              rw [hwu] at h
              simp only [exceptBind_ok] at h
              cases hrec : buildInputs cfg pub fn true ivL lsL (i + 1) rest with
              | error e => rw [hrec] at h; exact Except.noConfusion h
              | ok tail =>
                rw [hrec] at h
                simp only [exceptBind_ok] at h
                cases h
                rcases List.mem_cons.mp hp with hh | ht
                · subst hh; exact ⟨rfl, rfl⟩
                · exact ih (i + 1) tail (by rw [hapi]; exact hrec) p ht
        · rw [if_neg (by simpa using hleg)] at h
          cases hapi : hasApi with
          | false => rw [hapi] at h; exact Except.noConfusion h
          | true =>
            rw [hapi] at h
            simp only [if_true] at h
            cases hwu : getWitnessUtxo lsL ivL i with
            | error e => rw [hwu] at h; exact Except.noConfusion h
            | ok wu =>
              rw [hwu] at h
              simp only [exceptBind_ok] at h
              cases hrec : buildInputs cfg pub fn true ivL lsL (i + 1) rest with
              | error e => rw [hrec] at h; exact Except.noConfusion h
              | ok tail =>
                rw [hrec] at h
                simp only [exceptBind_ok] at h
                cases h
                rcases List.mem_cons.mp hp with hh | ht
                · subst hh; exact ⟨rfl, rfl⟩
                · exact ih (i + 1) tail (by rw [hapi]; exact hrec) p ht

/-- C10: for every input of a transaction that `signTransaction`
successfully signs, the signed transaction carries sequence number
`0xfffffffd` and sighash type `0x01` on that input, regardless of the
sequence numbers of the unsigned parsed transaction — provided the external
sign-and-finalize step preserves the per-input sequence and sighash fields
(its documented behaviour: it only attaches signatures). -/
theorem signTransaction_overrides_sequence
    (getPub : String → Bool → List Nat)
    (p2wpkhFn : List Nat → Option (List Nat))
    (signFin : PSBTTx → List Nat → Except String PSBTTx)
    (rawHex : String) (config : SigningConfig)
    (inputValues : Option (List Nat)) (lockScripts : Option (List String))
    (signed : PSBTTx)
    (hfin : ∀ t k u, signFin t k = Except.ok u →
      u.inputs.map (fun p => (p.sequence, p.sighashType)) =
        t.inputs.map (fun p => (p.sequence, p.sighashType)))
    (hok : (signTransactionModel getPub p2wpkhFn signFin rawHex config
        inputValues lockScripts).1 = Except.ok signed) :
    ∀ p ∈ signed.inputs, p.sequence = 0xfffffffd ∧ p.sighashType = 0x01 := by
  intro p hp
  cases hkey : hexToBytesOpt config.privateKeyHex with
  | none =>
    rw [signTransactionModel, hkey] at hok
    exact Except.noConfusion hok
  | some keyBytes =>
    simp only [signTransactionModel, hkey] at hok
    cases hhex : hexToBytesOpt rawHex with
    | none =>
      rw [hhex] at hok
      simp only [exceptBind_error] at hok
      exact Except.noConfusion hok
    | some bytes =>
      rw [hhex] at hok
      simp only [exceptBind_ok] at hok
      cases hparse : parseRawTx bytes with
      | none =>
        rw [hparse] at hok
        simp only [exceptBind_error] at hok
        exact Except.noConfusion hok
      | some tx =>
        rw [hparse] at hok
        simp only [exceptBind_ok] at hok
        cases hbuild : buildInputs config (getPub config.privateKeyHex
            config.compressed) p2wpkhFn (hasApiDataFn inputValues lockScripts)
            (inputValues.getD []) (lockScripts.getD []) 0 tx.inputs with
        | error e =>
          rw [hbuild] at hok
          simp only [exceptBind_error] at hok
          exact Except.noConfusion hok
        | ok ins =>
          rw [hbuild] at hok
          simp only [exceptBind_ok] at hok
          have hmap := hfin _ _ _ hok
          have hmem : (p.sequence, p.sighashType) ∈
              signed.inputs.map (fun q => (q.sequence, q.sighashType)) :=
            List.mem_map.mpr ⟨p, hp, rfl⟩
          rw [hmap] at hmem
          obtain ⟨q, hq, hqe⟩ := List.mem_map.mp hmem
          have hqf := buildInputs_seq_sighash config _ p2wpkhFn _ _ _
            tx.inputs 0 ins hbuild q hq
          have h1 : q.sequence = p.sequence := congrArg Prod.fst hqe
          have h2 : q.sighashType = p.sighashType := congrArg Prod.snd hqe
          exact ⟨h1 ▸ hqf.1, h2 ▸ hqf.2⟩

/-- Witness for C10: the unsigned input of the sample run carries sequence
`0xffffffff`, and every input of the signed result carries `0xfffffffd`
with sighash `0x01`. -/
theorem signTransaction_overrides_sequence_witness :
    (signTransactionModel samplePub sampleP2wpkhFn sampleSignFin sampleTxHex
        sampleConfig (some [1000]) (some ["00"])).1 = Except.ok sampleSignedTx ∧
    (∀ inp ∈ sampleTx.inputs, inp.sequence = 0xffffffff) ∧
    (∀ p ∈ sampleSignedTx.inputs,
      p.sequence = 0xfffffffd ∧ p.sighashType = 0x01) :=
  ⟨rfl, by decide,
    signTransaction_overrides_sequence samplePub sampleP2wpkhFn sampleSignFin
      sampleTxHex sampleConfig (some [1000]) (some ["00"]) sampleSignedTx
      (fun t k u h => by injection h with h'; subst h'; rfl) rfl⟩
